import Mathlib

/-!
Verification of the microCRM task/survey engine.

Shallow embedding of the business logic of the repository:
users/models.py (roles), tasks/models.py (Task, read-status model),
tasks/views.py (survey submission side effect, grouped answers,
mark-as-read, photo append views), tasks/forms.py (client resolution),
tasks/admin.py (choice statistics), announcements/views.py (visibility).

Django model instances become Lean structures over Nat ids; querysets
become Lists; datetimes become Nat timestamps with day extraction;
exceptions become Except/inductive results.
-/

namespace MicroCRM

/-! ## users/models.py -/

/-- `Role` text choices from users/models.py (`UserRoles = Role`). -/
inductive Role
  | EMPLOYEE
  | MODERATOR
  | CLIENT
deriving DecidableEq, Repr

/-- A `CustomUser`: only the identity and the role matter for the claims. -/
structure User where
  id : Nat
  role : Role
deriving DecidableEq, Repr

/-! ## tasks/models.py : statuses, types, Task -/

/-- `TaskStatus` text choices. -/
inductive TaskStatus
  | DRAFT
  | SENT
  | REWORK
  | ON_CHECK
  | COMPLETED
deriving DecidableEq, Repr

/-- `TaskType` text choices. -/
inductive TaskType
  | SURVEY
  | EQUIPMENT_PHOTO
  | SIMPLE_PHOTO
deriving DecidableEq, Repr

/-- The fields of `Task` used by the claims.  `assigned_to` holds a user id
(the FK is nullable); counts are `PositiveIntegerField`s, hence `Nat`. -/
structure Task where
  taskType : TaskType
  status : TaskStatus
  is_active : Bool
  assigned_to : Option Nat
  target_count : Nat
  current_count : Nat
deriving DecidableEq, Repr

/-- `Task.can_be_viewed_by` (tasks/models.py).  Moderators always view;
employees view iff the status is in {SENT, REWORK, ON_CHECK}, the task is
active, and it is assigned to them or unassigned; other roles never view. -/
def Task.can_be_viewed_by (t : Task) (u : User) : Bool :=
  if u.role = Role.MODERATOR then
    true
  else if u.role = Role.EMPLOYEE then
    decide (t.status ∈ [TaskStatus.SENT, TaskStatus.REWORK, TaskStatus.ON_CHECK]) &&
      t.is_active &&
      (t.assigned_to = some u.id || t.assigned_to = none)
  else
    false

/-- Spec-side visibility predicate, written from the words of the claim
(C2), to be compared with `Task.can_be_viewed_by`. -/
def canViewSpec (t : Task) (u : User) : Bool :=
  match u.role with
  | Role.MODERATOR => true
  | Role.EMPLOYEE =>
      t.is_active &&
      decide (t.status = TaskStatus.SENT ∨ t.status = TaskStatus.REWORK ∨
              t.status = TaskStatus.ON_CHECK) &&
      (t.assigned_to = some u.id || t.assigned_to = none)
  | Role.CLIENT => false

/-- `Task.get_completion_percentage` (tasks/models.py):
`min(100, int(current_count / target_count * 100))` for survey tasks with a
positive target, else `0`.  Python's `int` on a nonnegative quotient is the
floor, which on naturals is `current_count * 100 / target_count`. -/
def Task.get_completion_percentage (t : Task) : Nat :=
  if t.taskType = TaskType.SURVEY ∧ t.target_count > 0 then
    min 100 (t.current_count * 100 / t.target_count)
  else
    0

/-! ## tasks/views.py : SurveyResponseView.form_valid side effect on the task

After `form.save()` succeeds, the view mutates the task:
photo-report tasks go to ON_CHECK and become inactive; survey tasks get
`current_count += 1` and, when a positive target is reached and the status
is not COMPLETED, the status becomes ON_CHECK (activity untouched). -/

/-- The survey branch of `SurveyResponseView.form_valid`: the counter is
incremented first, so the target test reads the incremented count. -/
def surveySubmitEffect (t : Task) : Task :=
  if t.target_count > 0 ∧ t.current_count + 1 ≥ t.target_count then
    if t.status ≠ TaskStatus.COMPLETED then
      { t with current_count := t.current_count + 1, status := TaskStatus.ON_CHECK }
    else { t with current_count := t.current_count + 1 }
  else { t with current_count := t.current_count + 1 }

/-- The whole `form_valid` task mutation, dispatching on `task_type`. -/
def formValidEffect (t : Task) : Task :=
  if t.taskType = TaskType.EQUIPMENT_PHOTO ∨ t.taskType = TaskType.SIMPLE_PHOTO then
    { t with status := TaskStatus.ON_CHECK, is_active := false }
  else if t.taskType = TaskType.SURVEY then
    surveySubmitEffect t
  else t

/-- On survey tasks `formValidEffect` is the survey branch. -/
theorem formValidEffect_survey (t : Task) (hty : t.taskType = TaskType.SURVEY) :
    formValidEffect t = surveySubmitEffect t := by
  simp [formValidEffect, hty]

/-! ## Theorems for C1, C2, C9 -/

/-- C1: for every Survey-type task, a successful survey submission increments
`current_count` by exactly 1; the status is unchanged unless
`target_count > 0` and the incremented count reaches the target and the
status is not COMPLETED, in which case it becomes ON_CHECK; `is_active` is
never modified, so it remains `true` whenever it was `true`.  In particular
the (target=2, current=1, SENT, active) task ends as
(current=2, ON_CHECK, active). -/
theorem survey_submission_effect (t : Task) (hty : t.taskType = TaskType.SURVEY) :
    (formValidEffect t).current_count = t.current_count + 1 ∧
    (formValidEffect t).is_active = t.is_active ∧
    ((formValidEffect t).status =
      if t.target_count > 0 ∧ t.current_count + 1 ≥ t.target_count ∧
          t.status ≠ TaskStatus.COMPLETED then
        TaskStatus.ON_CHECK
      else t.status) ∧
    (t.is_active = true → (formValidEffect t).is_active = true) ∧
    (formValidEffect
        ⟨TaskType.SURVEY, TaskStatus.SENT, true, none, 2, 1⟩ =
      ⟨TaskType.SURVEY, TaskStatus.ON_CHECK, true, none, 2, 2⟩) := by
  rw [formValidEffect_survey t hty]
  refine ⟨?_, ?_, ?_, ?_, by decide⟩
  · simp only [surveySubmitEffect]
    split
    · split <;> rfl
    · rfl
  · simp only [surveySubmitEffect]
    split
    · split <;> rfl
    · rfl
  · simp only [surveySubmitEffect]
    split
    · rename_i h1
      split
      · rename_i h2
        rw [if_pos]
        exact ⟨h1.1, h1.2, h2⟩
      · rename_i h2
        rw [not_not] at h2
        rw [if_neg]
        rintro ⟨_, _, hc⟩
        exact hc h2
    · rename_i h1
      rw [if_neg]
      rintro ⟨ha, hb, _⟩
      exact h1 ⟨ha, hb⟩
  · intro h
    simp only [surveySubmitEffect]
    split
    · split <;> exact h
    · exact h

/-- Witness for C1: the scenario task of the claim, run through the theorem. -/
theorem survey_submission_effect_witness :
    (Task.mk TaskType.SURVEY TaskStatus.SENT true none 2 1).taskType =
        TaskType.SURVEY ∧
      (formValidEffect (Task.mk TaskType.SURVEY TaskStatus.SENT true none 2 1)).current_count =
        (Task.mk TaskType.SURVEY TaskStatus.SENT true none 2 1).current_count + 1 :=
  ⟨by decide,
    (survey_submission_effect (Task.mk TaskType.SURVEY TaskStatus.SENT true none 2 1)
      (by decide)).1⟩

/-- C2: `can_be_viewed_by` agrees with the claimed predicate for each role,
and consequently an employee never sees a DRAFT or inactive task. -/
theorem can_be_viewed_by_spec (t : Task) (u : User) :
    t.can_be_viewed_by u = canViewSpec t u ∧
    (u.role = Role.EMPLOYEE →
      (t.status = TaskStatus.DRAFT ∨ t.is_active = false) →
      t.can_be_viewed_by u = false) := by
  constructor
  · cases hu : u.role <;>
      simp [Task.can_be_viewed_by, canViewSpec, hu, List.mem_cons, or_assoc,
        Bool.and_comm, Bool.and_assoc, Bool.and_left_comm]
  · intro hrole hbad
    cases hbad with
    | inl hdraft =>
        simp [Task.can_be_viewed_by, hrole, hdraft]
    | inr hinactive =>
        simp [Task.can_be_viewed_by, hrole, hinactive]

/-- Witness for C2: a DRAFT task is invisible to a concrete employee. -/
theorem can_be_viewed_by_spec_witness :
    (Task.mk TaskType.SURVEY TaskStatus.DRAFT true none 0 0).can_be_viewed_by
        (User.mk 1 Role.EMPLOYEE) = false :=
  (can_be_viewed_by_spec (Task.mk TaskType.SURVEY TaskStatus.DRAFT true none 0 0)
      (User.mk 1 Role.EMPLOYEE)).2 (by decide) (Or.inl (by decide))

/-- C9 counterexample: the claim asserts the percentage formula for *every*
task with `target_count > 0`, but the code also requires the task type to be
SURVEY; a photo task with target 1 and count 1 yields 0, not 100. -/
theorem completion_percentage_counterexample :
    ¬ ((Task.mk TaskType.EQUIPMENT_PHOTO TaskStatus.SENT true none 1 1).get_completion_percentage =
        min 100 ((Task.mk TaskType.EQUIPMENT_PHOTO TaskStatus.SENT true none 1 1).current_count * 100 /
          (Task.mk TaskType.EQUIPMENT_PHOTO TaskStatus.SENT true none 1 1).target_count)) := by
  decide

/-- C9 amended: for every *survey* task with `target_count > 0` the completion
percentage is `min 100 (floor (current/target*100))`; in every other case
(zero target or non-survey type) it is 0. -/
theorem completion_percentage_correct (t : Task) :
    (t.taskType = TaskType.SURVEY → t.target_count > 0 →
      t.get_completion_percentage = min 100 (t.current_count * 100 / t.target_count)) ∧
    (t.target_count = 0 ∨ t.taskType ≠ TaskType.SURVEY →
      t.get_completion_percentage = 0) := by
  constructor
  · intro hty htgt
    simp [Task.get_completion_percentage, hty, htgt]
  · rintro (h0 | hne)
    · simp [Task.get_completion_percentage, h0]
    · simp [Task.get_completion_percentage, hne]

/-- Witness for C9: a survey task 1-of-2 complete reports 50%. -/
theorem completion_percentage_correct_witness :
    (Task.mk TaskType.SURVEY TaskStatus.SENT true none 2 1).get_completion_percentage =
      min 100 ((Task.mk TaskType.SURVEY TaskStatus.SENT true none 2 1).current_count * 100 /
        (Task.mk TaskType.SURVEY TaskStatus.SENT true none 2 1).target_count) :=
  (completion_percentage_correct
      (Task.mk TaskType.SURVEY TaskStatus.SENT true none 2 1)).1 (by decide) (by decide)

/-! ## announcements/views.py : visibility -/

/-- `Announcement.target_audience` text choices. -/
inductive TargetAudience
  | ALL_USERS
  | ALL_EMPLOYEES
  | MODERATORS
  | CUSTOM
deriving DecidableEq, Repr

/-- An `Announcement`: audience rule plus explicit recipient ids. -/
structure Announcement where
  target_audience : TargetAudience
  recipients : List Nat
deriving DecidableEq, Repr

/-- The queryset `Q(...)` prefilter of `get_user_announcements`. -/
def announcementPrefilter (a : Announcement) (u : User) : Bool :=
  a.target_audience = TargetAudience.ALL_USERS ||
  a.target_audience = TargetAudience.ALL_EMPLOYEES ||
  a.target_audience = TargetAudience.MODERATORS ||
  (a.target_audience = TargetAudience.CUSTOM && a.recipients.contains u.id)

/-- The per-announcement Python filter of `get_user_announcements`. -/
def announcementVisibleFilter (a : Announcement) (u : User) : Bool :=
  a.target_audience = TargetAudience.ALL_USERS ||
  a.target_audience = TargetAudience.ALL_EMPLOYEES ||
  (a.target_audience = TargetAudience.MODERATORS && u.role = Role.MODERATOR) ||
  (a.target_audience = TargetAudience.CUSTOM && a.recipients.contains u.id)

/-- An announcement reaches a user iff it passes both the queryset
prefilter and the Python filter, as in `get_user_announcements`. -/
def canSee (a : Announcement) (u : User) : Bool :=
  announcementPrefilter a u && announcementVisibleFilter a u

/-- Spec-side visibility, written from the words of the claim (C7). -/
def canSeeSpec (a : Announcement) (u : User) : Bool :=
  match a.target_audience with
  | TargetAudience.ALL_USERS => true
  | TargetAudience.ALL_EMPLOYEES => true
  | TargetAudience.MODERATORS => u.role = Role.MODERATOR
  | TargetAudience.CUSTOM => a.recipients.contains u.id

/-- C7: announcement visibility matches the claimed audience rules
(`AllEmployees` really is visible to everybody), and a Custom announcement
with recipients [1, 2] is seen by users 1 and 2 but not by user 3. -/
theorem announcement_visibility_spec :
    (∀ (a : Announcement) (u : User), canSee a u = canSeeSpec a u) ∧
    canSee (Announcement.mk TargetAudience.CUSTOM [1, 2]) (User.mk 1 Role.EMPLOYEE) = true ∧
    canSee (Announcement.mk TargetAudience.CUSTOM [1, 2]) (User.mk 2 Role.EMPLOYEE) = true ∧
    canSee (Announcement.mk TargetAudience.CUSTOM [1, 2]) (User.mk 3 Role.EMPLOYEE) = false := by
  refine ⟨?_, by decide, by decide, by decide⟩
  intro a u
  cases ha : a.target_audience <;>
    simp [canSee, canSeeSpec, announcementPrefilter, announcementVisibleFilter, ha]

/-! ## tasks/views.py : AddPhotosView / AddSinglePhotoView -/

/-- Outcome of a photo-append view: either the 10-photo limit error or a
successful append of `n` new photo rows. -/
inductive AddPhotosOutcome
  | limitError
  | added (n : Nat)
deriving DecidableEq, Repr

/-- `AddPhotosView.form_valid`: with `k` photos on the answer and `n`
uploaded files, `remaining_slots = 10 - k` (a Python int, so computed in
ℤ); when it is ≤ 0 the view errors without writing, otherwise it creates
`min n remaining_slots` photo rows (the excess is silently dropped). -/
def addPhotos (k n : Nat) : AddPhotosOutcome :=
  if (10 : Int) - (k : Int) ≤ 0 then
    AddPhotosOutcome.limitError
  else
    AddPhotosOutcome.added (min n ((10 : Int) - (k : Int)).toNat)

/-- `AddSinglePhotoView.form_valid`: errors when 10 photos already exist,
otherwise appends exactly one. -/
def addSinglePhoto (k : Nat) : AddPhotosOutcome :=
  if k ≥ 10 then AddPhotosOutcome.limitError else AddPhotosOutcome.added 1

/-- Photo count on the answer after an append outcome. -/
def photosAfter (k : Nat) (o : AddPhotosOutcome) : Nat :=
  match o with
  | AddPhotosOutcome.limitError => k
  | AddPhotosOutcome.added n => k + n

/-- C5 counterexample: with 9 existing photos and 2 uploads, 9 + 2 exceeds
10, yet the multi-photo view does not fail: it appends one photo (a partial
write), contradicting the claim that such a request fails with
`PhotoLimitExceeded` and writes nothing. -/
theorem add_photos_counterexample :
    9 + 2 > 10 ∧
    addPhotos 9 2 ≠ AddPhotosOutcome.limitError ∧
    addPhotos 9 2 = AddPhotosOutcome.added 1 ∧
    photosAfter 9 (addPhotos 9 2) ≠ 9 := by
  decide

/-- C5 amended: the multi-photo view fails (writing nothing) only when the
answer is already full (`k = 10` under the 0 ≤ k ≤ 10 precondition); when
`k < 10` it appends `min n (10 - k)` photos, silently truncating the
excess.  The single-photo view fails exactly when `k + 1` would exceed 10.
In all cases the photo count stays ≤ 10. -/
theorem add_photos_correct (k n : Nat) (hk : k ≤ 10) :
    (k = 10 → addPhotos k n = AddPhotosOutcome.limitError ∧
      photosAfter k (addPhotos k n) = k) ∧
    (k < 10 → addPhotos k n = AddPhotosOutcome.added (min n (10 - k))) ∧
    photosAfter k (addPhotos k n) ≤ 10 ∧
    (k + 1 > 10 → addSinglePhoto k = AddPhotosOutcome.limitError ∧
      photosAfter k (addSinglePhoto k) = k) ∧
    (k + 1 ≤ 10 → addSinglePhoto k = AddPhotosOutcome.added 1 ∧
      photosAfter k (addSinglePhoto k) = k + 1) ∧
    photosAfter k (addSinglePhoto k) ≤ 10 := by
  refine ⟨?_, ?_, ?_, ?_, ?_, ?_⟩
  · intro h10
    subst h10
    constructor
    · rfl
    · rfl
  · intro hlt
    simp only [addPhotos]
    rw [if_neg (by omega)]
    congr 1
    omega
  · simp only [addPhotos]
    split
    · simp only [photosAfter]
      exact hk
    · simp only [photosAfter]
      omega
  · intro hgt
    simp only [addSinglePhoto]
    rw [if_pos (by omega)]
    exact ⟨rfl, rfl⟩
  · intro hle
    simp only [addSinglePhoto]
    rw [if_neg (by omega)]
    exact ⟨rfl, rfl⟩
  · simp only [addSinglePhoto]
    split
    · simpa [photosAfter]
    · simp only [photosAfter]
      omega

/-- Witness for C5: an answer with 9 photos and 2 uploads keeps at most 10
photos. -/
theorem add_photos_correct_witness :
    photosAfter 9 (addPhotos 9 2) ≤ 10 :=
  (add_photos_correct 9 2 (by decide)).2.2.1

/-! ## tasks/admin.py : survey_statistics_view choice percentages

`percentage = (count / total * 100) if total > 0 else 0` followed by
`percentage = round(percentage * 2) / 2.0`.  Python's `round` ties to the
even integer; we model the arithmetic exactly over ℚ. -/

/-- Python's `round` to the nearest integer, ties to even, on an exact
rational value. -/
def pyRound (q : ℚ) : ℤ :=
  if q - (⌊q⌋ : ℚ) < 1/2 then ⌊q⌋
  else if (1 : ℚ)/2 < q - (⌊q⌋ : ℚ) then ⌊q⌋ + 1
  else if ⌊q⌋ % 2 = 0 then ⌊q⌋ else ⌊q⌋ + 1

/-- The percentage reported for one choice with `count` matching answers
out of `total` answers to the question. -/
def choicePercentage (count total : Nat) : ℚ :=
  (pyRound ((if 0 < total then (count : ℚ) / (total : ℚ) * 100 else 0) * 2) : ℚ) / 2

/-- The sum of the reported percentages across the choices of a question. -/
def choicePercentagesSum (counts : List Nat) (total : Nat) : ℚ :=
  (counts.map (fun c => choicePercentage c total)).sum

/-- Count of RADIO answers selecting a given custom choice
(`selected_choices` membership), with each answer reduced to its selected
choice id. -/
def radioChoiceCount (answers : List Nat) (choiceId : Nat) : Nat :=
  (answers.filter (fun a => a = choiceId)).length

/-- The rounded value is within 1/2 of its argument. -/
theorem pyRound_close (q : ℚ) : |(pyRound q : ℚ) - q| ≤ 1/2 := by
  have h0 : (⌊q⌋ : ℚ) ≤ q := Int.floor_le q
  have h1 : q < (⌊q⌋ : ℚ) + 1 := Int.lt_floor_add_one q
  rw [abs_le]
  simp only [pyRound]
  split
  · rename_i hlt
    constructor <;> linarith
  · rename_i hge
    rw [not_lt] at hge
    split
    · push_cast
      constructor <;> linarith
    · rename_i hgt
      rw [not_lt] at hgt
      have heq : q - (⌊q⌋ : ℚ) = 1/2 := le_antisymm hgt hge
      split <;> push_cast <;> constructor <;> linarith

/-- C6 counterexample: a RADIO question with three custom choices and three
answers, each answer selecting a different choice, reports 33.5% for every
choice; the percentages sum to 100.5 > 100, refuting the claim that they
sum to at most 100 whenever `total > 0`. -/
theorem choice_statistics_counterexample :
    0 < [1, 2, 3].length ∧
    ([1, 2, 3].map (radioChoiceCount [1, 2, 3])) = [1, 1, 1] ∧
    choicePercentage 1 3 = 67/2 ∧
    100 < choicePercentagesSum ([1, 2, 3].map (radioChoiceCount [1, 2, 3]))
      ([1, 2, 3].length) := by
  have hfloor : ⌊(200/3 : ℚ)⌋ = 66 := by
    rw [Int.floor_eq_iff]
    norm_num
  have h67 : pyRound ((200 : ℚ)/3) = 67 := by
    simp only [pyRound, hfloor]
    norm_num
  have hc : choicePercentage 1 3 = 67/2 := by
    simp only [choicePercentage]
    rw [if_pos (by norm_num)]
    rw [show (((1 : Nat) : ℚ)) / (((3 : Nat) : ℚ)) * 100 * 2 = (200 : ℚ)/3 by norm_num, h67]
    norm_num
  refine ⟨by decide, by decide, hc, ?_⟩
  show (100 : ℚ) < choicePercentagesSum [1, 1, 1] 3
  simp only [choicePercentagesSum, List.map_cons, List.map_nil, List.sum_cons,
    List.sum_nil, hc]
  norm_num

/-- Sum of a pointwise sum of two mapped functions. -/
theorem sum_map_add_split (l : List Nat) (f g : Nat → ℚ) :
    (l.map (fun c => f c + g c)).sum = (l.map f).sum + (l.map g).sum := by
  induction l with
  | nil => simp
  | cons a l ih => simp [ih]; ring

/-- Summing the constant 1/4 over a list gives length/4. -/
theorem sum_map_quarter (l : List Nat) :
    (l.map (fun (_ : Nat) => (1/4 : ℚ))).sum = (l.length : ℚ) * (1/4) := by
  induction l with
  | nil => simp
  | cons a l ih => simp [ih]; ring

/-- Summing exact percentages factors through the sum of the counts. -/
theorem sum_map_pct (l : List Nat) (total : Nat) :
    (l.map (fun (c : Nat) => (c : ℚ) / (total : ℚ) * 100)).sum =
      ((l.sum : ℚ)) / (total : ℚ) * 100 := by
  induction l with
  | nil => simp
  | cons a l ih =>
      simp only [List.map_cons, List.sum_cons, ih]
      push_cast
      ring

/-- C6 amended: each reported percentage is `round(count/total*100*2)/2`
computed exactly, is 0 when `total = 0`, is an integer multiple of 0.5 and
lies within 0.25 of the exact percentage; consequently when the counts sum
to at most `total` (as for single-select questions) the percentages sum to
at most `100 + k/4` for `k` choices — but not necessarily to at most 100. -/
theorem choice_statistics_correct (count total : Nat) (counts : List Nat)
    (htot : 0 < total) :
    choicePercentage count 0 = 0 ∧
    (∃ n : ℤ, choicePercentage count total = (n : ℚ) / 2) ∧
    |choicePercentage count total - (count : ℚ) / (total : ℚ) * 100| ≤ 1/4 ∧
    (counts.sum ≤ total →
      choicePercentagesSum counts total ≤ 100 + (counts.length : ℚ) / 4) := by
  have hclose : ∀ c : Nat, |choicePercentage c total - (c : ℚ) / (total : ℚ) * 100| ≤ 1/4 := by
    intro c
    have h := pyRound_close (((c : ℚ) / (total : ℚ) * 100) * 2)
    simp only [choicePercentage, htot, if_pos]
    have : (pyRound ((c : ℚ) / (total : ℚ) * 100 * 2) : ℚ) / 2 -
        (c : ℚ) / (total : ℚ) * 100 =
        ((pyRound ((c : ℚ) / (total : ℚ) * 100 * 2) : ℚ) -
          (c : ℚ) / (total : ℚ) * 100 * 2) / 2 := by ring
    rw [this, abs_div]
    rw [show |(2 : ℚ)| = 2 by norm_num]
    linarith [abs_nonneg ((pyRound ((c : ℚ) / (total : ℚ) * 100 * 2) : ℚ) -
      (c : ℚ) / (total : ℚ) * 100 * 2)]
  refine ⟨?_, ⟨pyRound ((if 0 < total then (count : ℚ) / (total : ℚ) * 100 else 0) * 2), rfl⟩,
    hclose count, ?_⟩
  · norm_num [choicePercentage, pyRound]
  · intro hsum
    have h1 : choicePercentagesSum counts total ≤
        (counts.map (fun (c : Nat) => (c : ℚ) / (total : ℚ) * 100 + 1/4)).sum := by
      apply List.sum_le_sum
      intro c _
      have := abs_le.mp (hclose c)
      linarith [this.2]
    have h2 : (counts.map (fun (c : Nat) => (c : ℚ) / (total : ℚ) * 100 + 1/4)).sum =
        (counts.map (fun (c : Nat) => (c : ℚ) / (total : ℚ) * 100)).sum +
          (counts.length : ℚ) * (1/4) := by
      rw [sum_map_add_split counts (fun (c : Nat) => (c : ℚ) / (total : ℚ) * 100)
        (fun _ => 1/4), sum_map_quarter]
    have htotQ : (0 : ℚ) < (total : ℚ) := by exact_mod_cast htot
    have hsumQ : ((counts.sum : ℚ)) ≤ (total : ℚ) := by exact_mod_cast hsum
    have h4 : ((counts.sum : ℚ)) / (total : ℚ) * 100 ≤ 100 := by
      rw [div_mul_eq_mul_div, div_le_iff₀ htotQ]
      nlinarith
    calc choicePercentagesSum counts total
        ≤ (counts.map (fun (c : Nat) => (c : ℚ) / (total : ℚ) * 100 + 1/4)).sum := h1
      _ = (counts.map (fun (c : Nat) => (c : ℚ) / (total : ℚ) * 100)).sum +
            (counts.length : ℚ) * (1/4) := h2
      _ = ((counts.sum : ℚ)) / (total : ℚ) * 100 + (counts.length : ℚ) * (1/4) := by
            rw [sum_map_pct]
      _ ≤ 100 + (counts.length : ℚ) / 4 := by linarith

/-- Witness for C6: two choices each picked once out of two answers sum to
at most 100 + 2/4. -/
theorem choice_statistics_correct_witness :
    0 < 2 ∧ [1, 1].sum ≤ 2 ∧
    choicePercentagesSum [1, 1] 2 ≤ 100 + (([1, 1] : List Nat).length : ℚ) / 4 :=
  ⟨by decide, by decide,
    (choice_statistics_correct 1 2 [1, 1] (by decide)).2.2.2 (by decide)⟩

/-! ## tasks/forms.py : SurveyResponseForm.save client resolution

When the task has no fixed client, the form resolves the client from the
POST payload: by `selected_client_id` when it names an existing client,
else by `selected_client` name — first `name__iexact`, then
`name__icontains` (one match accepted with a logged fuzzy warning, zero or
many raise).  Answer rows are only created after a client is resolved. -/

/-- A `Client` row: id and name. -/
structure Client where
  id : Nat
  name : String
deriving DecidableEq, Repr

/-- Case folding used to model Django's case-insensitive lookups. -/
def lowerName (s : String) : List Char :=
  s.data.map Char.toLower

/-- Substring test on folded names (`name__icontains`). -/
def containsSub (needle hay : List Char) : Bool :=
  if needle.isPrefixOf hay then true
  else
    match hay with
    | [] => false
    | _ :: t => containsSub needle t

/-- `Client.objects.filter(name__iexact=nm)` as a list. -/
def getByIexact (cs : List Client) (nm : String) : List Client :=
  cs.filter (fun c => lowerName c.name = lowerName nm)

/-- `Client.objects.filter(name__icontains=nm)` as a list. -/
def getByIcontains (cs : List Client) (nm : String) : List Client :=
  cs.filter (fun c => containsSub (lowerName nm) (lowerName c.name))

/-- Failures that end `SurveyResponseForm.save` before any answer row is
created.  The first three surface as `ValueError`s; the last is the
uncaught `MultipleObjectsReturned` of the `name__iexact` lookup. -/
inductive ClientResolveError
  | notSelected
  | clientNotFound (nm : String)
  | ambiguousClient (nm : String)
  | multipleExactMatches (nm : String)
deriving DecidableEq, Repr

/-- A resolved client, with the flag telling whether the fuzzy-match
warning was logged. -/
structure ResolvedClient where
  client : Client
  fuzzyWarned : Bool
deriving DecidableEq, Repr

/-- Name-based resolution: empty name fails; a unique `iexact` match wins;
otherwise a unique `icontains` match is accepted with the fuzzy warning;
zero substring matches raise ClientNotFound, several raise
AmbiguousClient. -/
def resolveByName (cs : List Client) (nm : String) :
    Except ClientResolveError ResolvedClient :=
  if nm = "" then
    Except.error ClientResolveError.notSelected
  else
    match getByIexact cs nm with
    | [c] => Except.ok (ResolvedClient.mk c false)
    | [] =>
        match getByIcontains cs nm with
        | [c] => Except.ok (ResolvedClient.mk c true)
        | [] => Except.error (ClientResolveError.clientNotFound nm)
        | _ => Except.error (ClientResolveError.ambiguousClient nm)
    | _ => Except.error (ClientResolveError.multipleExactMatches nm)

/-- Payload resolution: an existing `selected_client_id` wins; a missing
or dangling id falls back to the name path. -/
def resolveClient (cs : List Client) (selId : Option Nat) (nm : String) :
    Except ClientResolveError ResolvedClient :=
  match selId with
  | some i =>
      match cs.find? (fun c => c.id = i) with
      | some c => Except.ok (ResolvedClient.mk c false)
      | none => resolveByName cs nm
  | none => resolveByName cs nm

/-- Resolution including the fixed-client shortcut (`task.client`). -/
def formResolveClient (taskClient : Option Client) (cs : List Client)
    (selId : Option Nat) (nm : String) : Except ClientResolveError ResolvedClient :=
  match taskClient with
  | some c => Except.ok (ResolvedClient.mk c false)
  | none => resolveClient cs selId nm

/-- One `SurveyAnswer` row as created by the save loop. -/
structure AnswerRecord where
  questionId : Nat
  userId : Nat
  clientId : Nat
deriving DecidableEq, Repr

/-- `SurveyResponseForm.save`: resolve the client, then create one answer
row per question; a resolution failure happens before the loop, so
nothing is created. -/
def surveyFormSave (taskClient : Option Client) (cs : List Client)
    (selId : Option Nat) (nm : String) (questions : List Nat) (userId : Nat) :
    Except ClientResolveError (List AnswerRecord) :=
  match formResolveClient taskClient cs selId nm with
  | Except.error e => Except.error e
  | Except.ok r =>
      Except.ok (questions.map (fun q => AnswerRecord.mk q userId r.client.id))

/-- C8: for a task with no fixed client, resolution follows the claimed
order — an existing payload id wins; otherwise the name path runs, where a
unique case-insensitive exact match wins, else a unique substring match is
accepted (fuzzy-warned), zero substring matches give ClientNotFound, and
several give AmbiguousClient — and any failure aborts the save with no
answer record created. -/
theorem client_resolution_spec (cs : List Client) (selId : Option Nat) (nm : String)
    (questions : List Nat) (userId : Nat) :
    (∀ i c, selId = some i → cs.find? (fun c0 => c0.id = i) = some c →
      resolveClient cs selId nm = Except.ok (ResolvedClient.mk c false)) ∧
    (selId = none → resolveClient cs selId nm = resolveByName cs nm) ∧
    (∀ i, selId = some i → cs.find? (fun c0 => c0.id = i) = none →
      resolveClient cs selId nm = resolveByName cs nm) ∧
    (∀ c, getByIexact cs nm = [c] → nm ≠ "" →
      resolveByName cs nm = Except.ok (ResolvedClient.mk c false)) ∧
    (∀ c, getByIexact cs nm = [] → getByIcontains cs nm = [c] → nm ≠ "" →
      resolveByName cs nm = Except.ok (ResolvedClient.mk c true)) ∧
    (getByIexact cs nm = [] → getByIcontains cs nm = [] → nm ≠ "" →
      resolveByName cs nm = Except.error (ClientResolveError.clientNotFound nm)) ∧
    (∀ c1 c2 rest, getByIexact cs nm = [] → getByIcontains cs nm = c1 :: c2 :: rest →
      nm ≠ "" →
      resolveByName cs nm = Except.error (ClientResolveError.ambiguousClient nm)) ∧
    (∀ e, formResolveClient none cs selId nm = Except.error e →
      surveyFormSave none cs selId nm questions userId = Except.error e) := by
  refine ⟨?_, ?_, ?_, ?_, ?_, ?_, ?_, ?_⟩
  · intro i c hsel hfind
    subst hsel
    simp only [resolveClient, hfind]
  · intro hsel
    subst hsel
    rfl
  · intro i hsel hfind
    subst hsel
    simp only [resolveClient, hfind]
  · intro c hexact hnm
    simp only [resolveByName, if_neg hnm, hexact]
  · intro c hexact hsub hnm
    simp only [resolveByName, if_neg hnm, hexact, hsub]
  · intro hexact hsub hnm
    simp only [resolveByName, if_neg hnm, hexact, hsub]
  · intro c1 c2 rest hexact hsub hnm
    simp only [resolveByName, if_neg hnm, hexact, hsub]
  · intro e herr
    simp only [surveyFormSave, herr]

/-- Witness for C8: in the store [Romashka OOO, Roma Inc, Prochee], the
name "mashka" has no exact match and exactly one substring match, so the
submission resolves to Romashka OOO with the fuzzy warning. -/
theorem client_resolution_spec_witness :
    getByIexact [Client.mk 1 "Romashka OOO", Client.mk 2 "Roma Inc", Client.mk 3 "Prochee"]
        "mashka" = [] ∧
    getByIcontains [Client.mk 1 "Romashka OOO", Client.mk 2 "Roma Inc", Client.mk 3 "Prochee"]
        "mashka" = [Client.mk 1 "Romashka OOO"] ∧
    "mashka" ≠ "" ∧
    resolveByName [Client.mk 1 "Romashka OOO", Client.mk 2 "Roma Inc", Client.mk 3 "Prochee"]
        "mashka" = Except.ok (ResolvedClient.mk (Client.mk 1 "Romashka OOO") true) :=
  ⟨by decide, by decide, by decide,
    (client_resolution_spec
        [Client.mk 1 "Romashka OOO", Client.mk 2 "Roma Inc", Client.mk 3 "Prochee"]
        none "mashka" [] 0).2.2.2.2.1
      (Client.mk 1 "Romashka OOO") (by decide) (by decide) (by decide)⟩

/-! ## tasks/models.py SurveyAnswerGroupReadStatus + tasks/views.py markAsRead

The model keys a group's read state by (task, client, user, date_created)
with `unique_together`; `date_created` is a `DateField(auto_now_add=True)`,
so on row creation the persistence layer overwrites any supplied value
with the save-day.  `markAsRead` parses `task_clientId_user_date` and runs
`get_or_create` on that key (updating `read_at`/`read_by` when the row is
found); an insert that collides on the unique key raises, which the view
reports as an error response.  Days are day numbers, times are
timestamps. -/

/-- A stored `SurveyAnswerGroupReadStatus` row. -/
structure ReadStatusRow where
  taskId : Nat
  clientId : Nat
  userId : Nat
  date_created : Nat
  read_at : Option Nat
  read_by : Option Nat
deriving DecidableEq, Repr

/-- The read-status table. -/
abbrev ReadStore := List ReadStatusRow

/-- Key match on `(task, client, user, date_created)`. -/
def readStatusKeyMatches (r : ReadStatusRow) (t c u d : Nat) : Bool :=
  r.taskId = t && r.clientId = c && r.userId = u && r.date_created = d

/-- The `get` part of `get_or_create`. -/
def findReadStatus (s : ReadStore) (t c u d : Nat) : Option ReadStatusRow :=
  s.find? (fun r => readStatusKeyMatches r t c u d)

/-- Updating the existing row: `read_at = now`, `read_by = requester`. -/
def updateReadStatus (s : ReadStore) (t c u d now : Nat) (requester : Option Nat) :
    ReadStore :=
  s.map (fun r =>
    if readStatusKeyMatches r t c u d then
      { r with read_at := some now, read_by := requester }
    else r)

/-- Outcome of the markAsRead endpoint. -/
inductive MarkAsReadOutcome
  | success (readAt : Nat)
  | integrityError
deriving DecidableEq, Repr

/-- `markAsRead` on a parsed key: look up `(t, c, u, d)`; update the row if
found; otherwise insert — but `auto_now_add` stores `today` as the new
row's `date_created`, and the insert fails on the unique key when a
`(t, c, u, today)` row already exists. -/
def markAsRead (s : ReadStore) (t c u d now today : Nat) (requester : Option Nat) :
    ReadStore × MarkAsReadOutcome :=
  match findReadStatus s t c u d with
  | some _ =>
      (updateReadStatus s t c u d now requester, MarkAsReadOutcome.success now)
  | none =>
      if (findReadStatus s t c u today).isSome then
        (s, MarkAsReadOutcome.integrityError)
      else
        (s ++ [ReadStatusRow.mk t c u today (some now) requester],
          MarkAsReadOutcome.success now)

/-- C10: every row `markAsRead` stores either keeps the key (including
`date_created`) of a pre-existing row, or is freshly created with
`date_created = today` — never the requested date; hence calling the
endpoint with `d ≠ today` on a store holding no `d`-dated row cannot
produce a row dated `d`. -/
theorem read_status_date_auto_now_add (s : ReadStore) (t c u d now today : Nat)
    (req : Option Nat) :
    (∀ r ∈ (markAsRead s t c u d now today req).1,
      (∃ r0 ∈ s, r0.taskId = r.taskId ∧ r0.clientId = r.clientId ∧
        r0.userId = r.userId ∧ r0.date_created = r.date_created) ∨
      r.date_created = today) ∧
    (d ≠ today → (∀ r0 ∈ s, r0.date_created ≠ d) →
      ∀ r ∈ (markAsRead s t c u d now today req).1, r.date_created ≠ d) := by
  have hmain : ∀ r ∈ (markAsRead s t c u d now today req).1,
      (∃ r0 ∈ s, r0.taskId = r.taskId ∧ r0.clientId = r.clientId ∧
        r0.userId = r.userId ∧ r0.date_created = r.date_created) ∨
      r.date_created = today := by
    intro r hr
    simp only [markAsRead] at hr
    cases hfind : findReadStatus s t c u d with
    | some r0 =>
        rw [hfind] at hr
        dsimp only at hr
        simp only [updateReadStatus, List.mem_map] at hr
        obtain ⟨r1, hr1, hrw⟩ := hr
        left
        refine ⟨r1, hr1, ?_⟩
        subst hrw
        split <;> exact ⟨rfl, rfl, rfl, rfl⟩
    | none =>
        rw [hfind] at hr
        dsimp only at hr
        split at hr
        · exact Or.inl ⟨r, hr, rfl, rfl, rfl, rfl⟩
        · rw [List.mem_append] at hr
          cases hr with
          | inl hmem => exact Or.inl ⟨r, hmem, rfl, rfl, rfl, rfl⟩
          | inr hnew =>
              right
              rw [List.mem_singleton] at hnew
              subst hnew
              rfl
  refine ⟨hmain, ?_⟩
  intro hne hnod r hr
  cases hmain r hr with
  | inl hinherit =>
      obtain ⟨r0, hr0, _, _, _, hdate⟩ := hinherit
      rw [← hdate]
      exact hnod r0 hr0
  | inr htoday =>
      rw [htoday]
      intro hcontra
      exact hne hcontra.symm

/-- Witness for C10: a call requesting date 5 on day 7 against the empty
store yields no row dated 5. -/
theorem read_status_date_auto_now_add_witness :
    (5 : Nat) ≠ 7 ∧
    ∀ r ∈ (markAsRead [] 1 2 3 5 100 7 (some 9)).1, r.date_created ≠ 5 :=
  ⟨by decide,
    (read_status_date_auto_now_add [] 1 2 3 5 100 7 (some 9)).2 (by decide)
      (by intro r0 hr0; cases hr0)⟩

/-- C4 (code bug): against the documented upsert key, calling markAsRead
twice for group key (task 1, client 2, user 3, date 5) on day 7 starting
from an empty table stores a row dated 7 — not 5 — on the first call, and
the second call, failing to find a row dated 5, attempts a fresh insert
that violates the unique key and errors instead of succeeding
idempotently. -/
theorem mark_as_read_not_idempotent_bug :
    (markAsRead [] 1 2 3 5 100 7 (some 9)).2 = MarkAsReadOutcome.success 100 ∧
    (markAsRead [] 1 2 3 5 100 7 (some 9)).1 =
      [ReadStatusRow.mk 1 2 3 7 (some 100) (some 9)] ∧
    findReadStatus (markAsRead [] 1 2 3 5 100 7 (some 9)).1 1 2 3 5 = none ∧
    (markAsRead (markAsRead [] 1 2 3 5 100 7 (some 9)).1 1 2 3 5 200 7 (some 9)).2 =
      MarkAsReadOutcome.integrityError ∧
    (markAsRead (markAsRead [] 1 2 3 5 100 7 (some 9)).1 1 2 3 5 200 7 (some 9)).1 =
      (markAsRead [] 1 2 3 5 100 7 (some 9)).1 := by
  decide

/-! ## tasks/views.py : getGroupedAnswers

Answers are fetched ordered by `-created_at`, folded into an
insertion-ordered dict keyed by `task_client_user_date` (ints joined by
underscores, hence equivalent to the 4-tuple), each group's `dateCreated`
being the first (most recent) answer's timestamp, and the group list is
finally re-sorted by `dateCreated` descending.  The ORM's descending sort
is modelled by an insertion sort on Nat keys. -/

/-- Insert into a descending-sorted list (stable for equal keys). -/
def insertDesc {α : Type} (k : α → Nat) (a : α) : List α → List α
  | [] => [a]
  | b :: l => if k b ≤ k a then a :: b :: l else b :: insertDesc k a l

/-- Sort a list descending by a Nat key (`order_by('-created_at')`,
`result.sort(key=..., reverse=True)`). -/
def sortDesc {α : Type} (k : α → Nat) : List α → List α
  | [] => []
  | a :: l => insertDesc k a (sortDesc k l)

theorem mem_insertDesc {α : Type} (k : α → Nat) (a x : α) (l : List α) :
    x ∈ insertDesc k a l ↔ x = a ∨ x ∈ l := by
  induction l with
  | nil => simp [insertDesc]
  | cons b l ih =>
      simp only [insertDesc]
      split
      · simp
      · simp only [List.mem_cons, ih]
        tauto

theorem mem_sortDesc {α : Type} (k : α → Nat) (x : α) (l : List α) :
    x ∈ sortDesc k l ↔ x ∈ l := by
  induction l with
  | nil => simp [sortDesc]
  | cons a l ih =>
      simp only [sortDesc, mem_insertDesc, List.mem_cons, ih]

theorem perm_insertDesc {α : Type} (k : α → Nat) (a : α) (l : List α) :
    List.Perm (insertDesc k a l) (a :: l) := by
  induction l with
  | nil => simp [insertDesc]
  | cons b l ih =>
      simp only [insertDesc]
      split
      · exact List.Perm.refl _
      · exact List.Perm.trans (List.Perm.cons b ih) (List.Perm.swap a b l)

theorem perm_sortDesc {α : Type} (k : α → Nat) (l : List α) :
    List.Perm (sortDesc k l) l := by
  induction l with
  | nil => exact List.Perm.refl _
  | cons a l ih =>
      exact List.Perm.trans (perm_insertDesc k a (sortDesc k l)) (List.Perm.cons a ih)

theorem pairwise_insertDesc {α : Type} (k : α → Nat) (a : α) (l : List α)
    (hl : l.Pairwise (fun x y => k y ≤ k x)) :
    (insertDesc k a l).Pairwise (fun x y => k y ≤ k x) := by
  induction l with
  | nil => simp [insertDesc]
  | cons b l ih =>
      rw [List.pairwise_cons] at hl
      simp only [insertDesc]
      split
      · rename_i hba
        rw [List.pairwise_cons]
        refine ⟨?_, List.Pairwise.cons hl.1 hl.2⟩
        intro x hx
        rcases List.mem_cons.mp hx with hxb | hxl
        · subst hxb; exact hba
        · exact le_trans (hl.1 x hxl) hba
      · rename_i hab
        rw [List.pairwise_cons]
        refine ⟨?_, ih hl.2⟩
        intro x hx
        rcases (mem_insertDesc k a x l).mp hx with hxa | hxl
        · subst hxa; exact le_of_not_le hab
        · exact hl.1 x hxl

theorem length_sortDesc {α : Type} (k : α → Nat) (l : List α) :
    (sortDesc k l).length = l.length :=
  (perm_sortDesc k l).length_eq

theorem pairwise_sortDesc {α : Type} (k : α → Nat) (l : List α) :
    (sortDesc k l).Pairwise (fun x y => k y ≤ k x) := by
  induction l with
  | nil => simp [sortDesc]
  | cons a l ih => exact pairwise_insertDesc k a (sortDesc k l) ih

/-- One stored `SurveyAnswer`, reduced to the fields the grouping uses.
`createdAt` is a timestamp in seconds. -/
structure AnswerRow where
  taskId : Nat
  clientId : Nat
  userId : Nat
  createdAt : Nat
deriving DecidableEq, Repr

/-- Seconds per day, for `created_at.date()`. -/
def secondsPerDay : Nat := 86400

/-- Calendar day of a timestamp. -/
def dateOf (ts : Nat) : Nat := ts / secondsPerDay

/-- The grouping key `task_client_user_date`; the code joins the four
integers with underscores, which is injective, so the 4-tuple is the same
key. -/
def groupKeyOf (a : AnswerRow) : Nat × Nat × Nat × Nat :=
  (a.taskId, a.clientId, a.userId, dateOf a.createdAt)

/-- One entry of `grouped_data`: its key, its `dateCreated` (the
`created_at` of the first answer folded in) and its answer list. -/
structure AnswerGroup where
  key : Nat × Nat × Nat × Nat
  dateCreated : Nat
  answers : List AnswerRow
deriving DecidableEq, Repr

/-- One step of the grouping loop: append the answer to its group if the
key is present, else open a new group at the end (Python dicts preserve
insertion order) with `dateCreated` set from this first answer. -/
def insertAnswer (gs : List AnswerGroup) (a : AnswerRow) : List AnswerGroup :=
  match gs with
  | [] => [AnswerGroup.mk (groupKeyOf a) a.createdAt [a]]
  | g :: rest =>
      if g.key = groupKeyOf a then
        { g with answers := g.answers ++ [a] } :: rest
      else
        g :: insertAnswer rest a

/-- `getGroupedAnswers`: order answers by `-created_at`, fold them into
groups, and sort the group list by `dateCreated` descending. -/
def getGroupedAnswers (rows : List AnswerRow) : List AnswerGroup :=
  sortDesc (fun g => g.dateCreated)
    ((sortDesc (fun a => a.createdAt) rows).foldl insertAnswer [])

/-- Two answers land in one group of the output. -/
def inSameGroup (gs : List AnswerGroup) (x y : AnswerRow) : Prop :=
  ∃ g ∈ gs, x ∈ g.answers ∧ y ∈ g.answers

/-- Membership across `insertAnswer`: the groups hold exactly the old
answers plus the inserted one. -/
theorem mem_insertAnswer (gs : List AnswerGroup) (a x : AnswerRow) :
    (∃ g ∈ insertAnswer gs a, x ∈ g.answers) ↔
      x = a ∨ ∃ g ∈ gs, x ∈ g.answers := by
  induction gs with
  | nil => simp [insertAnswer, eq_comm]
  | cons g rest ih =>
      simp only [insertAnswer]
      split
      · simp only [List.mem_cons, List.mem_append, List.mem_singleton]
        constructor
        · rintro ⟨g1, (hg1 | hg1), hx⟩
          · subst hg1
            simp only [List.mem_append, List.mem_singleton] at hx
            rcases hx with hx | hx
            · exact Or.inr ⟨g, Or.inl rfl, hx⟩
            · exact Or.inl hx
          · exact Or.inr ⟨g1, Or.inr hg1, hx⟩
        · rintro (hx | ⟨g1, (hg1 | hg1), hx⟩)
          · exact ⟨_, Or.inl rfl, by simp [hx]⟩
          · subst hg1
            exact ⟨_, Or.inl rfl, by simp [hx]⟩
          · exact ⟨g1, Or.inr hg1, hx⟩
      · simp only [List.mem_cons]
        constructor
        · rintro ⟨g1, (hg1 | hg1), hx⟩
          · subst hg1
            exact Or.inr ⟨g1, Or.inl rfl, hx⟩
          · rcases ih.mp ⟨g1, hg1, hx⟩ with h | ⟨g2, hg2, hx2⟩
            · exact Or.inl h
            · exact Or.inr ⟨g2, Or.inr hg2, hx2⟩
        · rintro (hx | ⟨g1, (hg1 | hg1), hx⟩)
          · rcases ih.mpr (Or.inl hx) with ⟨g2, hg2, hx2⟩
            exact ⟨g2, Or.inr hg2, hx2⟩
          · subst hg1
            exact ⟨g1, Or.inl rfl, hx⟩
          · rcases ih.mpr (Or.inr ⟨g1, hg1, hx⟩) with ⟨g2, hg2, hx2⟩
            exact ⟨g2, Or.inr hg2, hx2⟩

/-- Keys across `insertAnswer`: unchanged when the key is present, else
the new key is appended. -/
theorem keys_insertAnswer (gs : List AnswerGroup) (a : AnswerRow) :
    (insertAnswer gs a).map (fun g => g.key) =
      if groupKeyOf a ∈ gs.map (fun g => g.key) then gs.map (fun g => g.key)
      else gs.map (fun g => g.key) ++ [groupKeyOf a] := by
  induction gs with
  | nil => simp [insertAnswer]
  | cons g rest ih =>
      simp only [insertAnswer]
      split
      · rename_i hkey
        simp only [List.map_cons]
        have hin : groupKeyOf a ∈ g.key :: rest.map (fun g => g.key) :=
          List.mem_cons.mpr (Or.inl hkey.symm)
        rw [if_pos hin]
      · rename_i hkey
        simp only [List.map_cons, ih]
        by_cases hmem : groupKeyOf a ∈ rest.map (fun g => g.key)
        · rw [if_pos hmem, if_pos (List.mem_cons.mpr (Or.inr hmem))]
        · rw [if_neg hmem, if_neg]
          · rfl
          · intro hc
            rcases List.mem_cons.mp hc with hc | hc
            · exact hkey hc.symm
            · exact hmem hc

/-- Every answer stored in a group carries that group's key. -/
def keyConsistent (gs : List AnswerGroup) : Prop :=
  ∀ g ∈ gs, ∀ a ∈ g.answers, groupKeyOf a = g.key

theorem keyConsistent_insertAnswer (gs : List AnswerGroup) (a : AnswerRow)
    (h : keyConsistent gs) : keyConsistent (insertAnswer gs a) := by
  induction gs with
  | nil =>
      intro g hg x hx
      simp only [insertAnswer, List.mem_singleton] at hg
      subst hg
      simp only [List.mem_singleton] at hx
      subst hx
      rfl
  | cons g rest ih =>
      intro g1 hg1 x hx
      simp only [insertAnswer] at hg1
      split at hg1
      · rename_i hkey
        rcases List.mem_cons.mp hg1 with hg1 | hg1
        · subst hg1
          simp only [List.mem_append, List.mem_singleton] at hx
          rcases hx with hx | hx
          · exact h g (List.mem_cons_self g rest) x hx
          · subst hx
            exact hkey.symm
        · exact h g1 (List.mem_cons.mpr (Or.inr hg1)) x hx
      · rcases List.mem_cons.mp hg1 with hg1 | hg1
        · subst hg1
          exact h g1 (List.mem_cons_self g1 rest) x hx
        · exact ih (fun g2 hg2 => h g2 (List.mem_cons.mpr (Or.inr hg2))) g1 hg1 x hx

/-- Each group's `dateCreated` is the timestamp of one of its answers and
bounds them all (the most recent one). -/
def dateMax (gs : List AnswerGroup) : Prop :=
  ∀ g ∈ gs, g.dateCreated ∈ g.answers.map (fun a => a.createdAt) ∧
    ∀ a ∈ g.answers, a.createdAt ≤ g.dateCreated

theorem dateMax_insertAnswer (gs : List AnswerGroup) (a : AnswerRow)
    (hle : ∀ g ∈ gs, ∀ b ∈ g.answers, a.createdAt ≤ b.createdAt)
    (h : dateMax gs) : dateMax (insertAnswer gs a) := by
  induction gs with
  | nil =>
      intro g hg
      simp only [insertAnswer, List.mem_singleton] at hg
      subst hg
      simp
  | cons g rest ih =>
      intro g1 hg1
      simp only [insertAnswer] at hg1
      split at hg1
      · rcases List.mem_cons.mp hg1 with hg1 | hg1
        · subst hg1
          have hgmem := h g (List.mem_cons_self g rest)
          constructor
          · simp only [List.map_append, List.mem_append]
            exact Or.inl hgmem.1
          · intro x hx
            simp only [List.mem_append, List.mem_singleton] at hx
            rcases hx with hx | hx
            · exact hgmem.2 x hx
            · subst hx
              rcases List.mem_map.mp hgmem.1 with ⟨b, hb, hbe⟩
              calc x.createdAt ≤ b.createdAt :=
                    hle g (List.mem_cons_self g rest) b hb
                _ = g.dateCreated := hbe
        · exact h g1 (List.mem_cons.mpr (Or.inr hg1))
      · rcases List.mem_cons.mp hg1 with hg1 | hg1
        · subst hg1
          exact h g1 (List.mem_cons_self g1 rest)
        · exact ih (fun g2 hg2 => hle g2 (List.mem_cons.mpr (Or.inr hg2)))
            (fun g2 hg2 => h g2 (List.mem_cons.mpr (Or.inr hg2))) g1 hg1

theorem foldl_insertAnswer_mem (l : List AnswerRow) (gs : List AnswerGroup)
    (x : AnswerRow) :
    (∃ g ∈ l.foldl insertAnswer gs, x ∈ g.answers) ↔
      x ∈ l ∨ ∃ g ∈ gs, x ∈ g.answers := by
  induction l generalizing gs with
  | nil => simp
  | cons a l ih =>
      rw [List.foldl_cons, ih, mem_insertAnswer, List.mem_cons]
      tauto

theorem foldl_insertAnswer_keyConsistent (l : List AnswerRow)
    (gs : List AnswerGroup) (h : keyConsistent gs) :
    keyConsistent (l.foldl insertAnswer gs) := by
  induction l generalizing gs with
  | nil => exact h
  | cons a l ih =>
      rw [List.foldl_cons]
      exact ih _ (keyConsistent_insertAnswer gs a h)

theorem foldl_insertAnswer_keysNodup (l : List AnswerRow) (gs : List AnswerGroup)
    (h : (gs.map (fun g => g.key)).Nodup) :
    ((l.foldl insertAnswer gs).map (fun g => g.key)).Nodup := by
  induction l generalizing gs with
  | nil => exact h
  | cons a l ih =>
      rw [List.foldl_cons]
      refine ih _ ?_
      rw [keys_insertAnswer]
      split
      · exact h
      · rename_i hmem
        refine List.Nodup.append h (List.nodup_singleton _) ?_
        intro b hb hbx
        rw [List.mem_singleton] at hbx
        subst hbx
        exact hmem hb

theorem foldl_insertAnswer_dateMax (l : List AnswerRow) (gs : List AnswerGroup)
    (hsorted : l.Pairwise (fun x y => y.createdAt ≤ x.createdAt))
    (hle : ∀ g ∈ gs, ∀ b ∈ g.answers, ∀ x ∈ l, x.createdAt ≤ b.createdAt)
    (h : dateMax gs) : dateMax (l.foldl insertAnswer gs) := by
  induction l generalizing gs with
  | nil => exact h
  | cons a l ih =>
      rw [List.pairwise_cons] at hsorted
      rw [List.foldl_cons]
      refine ih _ hsorted.2 ?_
        (dateMax_insertAnswer gs a
          (fun g hg b hb => hle g hg b hb a (List.mem_cons_self a l)) h)
      intro g hg b hb x hx
      have hbmem : b = a ∨ ∃ g0 ∈ gs, b ∈ g0.answers :=
        (mem_insertAnswer gs a b).mp ⟨g, hg, hb⟩
      rcases hbmem with hba | ⟨g0, hg0, hb0⟩
      · subst hba
        exact hsorted.1 x hx
      · exact hle g0 hg0 b hb0 x (List.mem_cons.mpr (Or.inr hx))

/-- C3: the grouping endpoint puts two stored answers into one group
exactly when they agree on (task, client, user, calendar day); two answers
of one submission key on the same day form one group and on different days
two groups; and the returned group list is sorted by each group's most
recent `created_at`, descending. -/
theorem grouped_answers_spec :
    (∀ (rows : List AnswerRow) (x y : AnswerRow), x ∈ rows → y ∈ rows →
      (inSameGroup (getGroupedAnswers rows) x y ↔ groupKeyOf x = groupKeyOf y)) ∧
    (∀ a b : AnswerRow, a.taskId = b.taskId → a.clientId = b.clientId →
      a.userId = b.userId → dateOf a.createdAt = dateOf b.createdAt →
      (getGroupedAnswers [a, b]).length = 1) ∧
    (∀ a b : AnswerRow, a.taskId = b.taskId → a.clientId = b.clientId →
      a.userId = b.userId → dateOf a.createdAt ≠ dateOf b.createdAt →
      (getGroupedAnswers [a, b]).length = 2) ∧
    (∀ rows : List AnswerRow,
      (getGroupedAnswers rows).Pairwise (fun g h => h.dateCreated ≤ g.dateCreated)) ∧
    (∀ rows : List AnswerRow, ∀ g ∈ getGroupedAnswers rows,
      g.dateCreated ∈ g.answers.map (fun a => a.createdAt) ∧
      ∀ a ∈ g.answers, a.createdAt ≤ g.dateCreated) := by
  refine ⟨?_, ?_, ?_, ?_, ?_⟩
  · intro rows x y hx hy
    have hkc : keyConsistent
        ((sortDesc (fun a => a.createdAt) rows).foldl insertAnswer []) :=
      foldl_insertAnswer_keyConsistent _ [] (by intro g hg; cases hg)
    have hnd : (((sortDesc (fun a => a.createdAt) rows).foldl insertAnswer []).map
        (fun g => g.key)).Nodup :=
      foldl_insertAnswer_keysNodup _ [] (by simp)
    have hkcOut : keyConsistent (getGroupedAnswers rows) := by
      intro g hg
      exact hkc g ((mem_sortDesc _ g _).mp hg)
    have hndOut : ((getGroupedAnswers rows).map (fun g => g.key)).Nodup := by
      have hperm := (perm_sortDesc (fun g => g.dateCreated)
        ((sortDesc (fun a => a.createdAt) rows).foldl insertAnswer [])).map
          (fun g => g.key)
      exact (List.Perm.nodup_iff hperm).mpr hnd
    have hmemOut : ∀ z : AnswerRow, z ∈ rows →
        ∃ g ∈ getGroupedAnswers rows, z ∈ g.answers := by
      intro z hz
      have : ∃ g ∈ (sortDesc (fun a => a.createdAt) rows).foldl insertAnswer [],
          z ∈ g.answers := by
        rw [foldl_insertAnswer_mem]
        exact Or.inl ((mem_sortDesc _ z rows).mpr hz)
      obtain ⟨g, hg, hzg⟩ := this
      exact ⟨g, (mem_sortDesc _ g _).mpr hg, hzg⟩
    constructor
    · rintro ⟨g, hg, hxg, hyg⟩
      rw [hkcOut g hg x hxg, hkcOut g hg y hyg]
    · intro hkeq
      obtain ⟨gx, hgx, hxg⟩ := hmemOut x hx
      obtain ⟨gy, hgy, hyg⟩ := hmemOut y hy
      have hkx : gx.key = gy.key := by
        rw [← hkcOut gx hgx x hxg, ← hkcOut gy hgy y hyg, hkeq]
      have : gx = gy := List.inj_on_of_nodup_map hndOut hgx hgy hkx
      subst this
      exact ⟨gx, hgx, hxg, hyg⟩
  · intro a b h1 h2 h3 h4
    have hkey : groupKeyOf a = groupKeyOf b := by
      simp [groupKeyOf, h1, h2, h3, h4]
    rw [getGroupedAnswers, length_sortDesc]
    by_cases hc : b.createdAt ≤ a.createdAt
    · rw [show sortDesc (fun r => r.createdAt) [a, b] = [a, b] by
        simp [sortDesc, insertDesc, hc]]
      simp [insertAnswer, hkey]
    · rw [show sortDesc (fun r => r.createdAt) [a, b] = [b, a] by
        simp [sortDesc, insertDesc, hc]]
      simp [insertAnswer, hkey.symm]
  · intro a b h1 h2 h3 h4
    have hkey : groupKeyOf a ≠ groupKeyOf b := by
      intro heq
      exact h4 (congrArg (fun p => p.2.2.2) heq)
    rw [getGroupedAnswers, length_sortDesc]
    by_cases hc : b.createdAt ≤ a.createdAt
    · rw [show sortDesc (fun r => r.createdAt) [a, b] = [a, b] by
        simp [sortDesc, insertDesc, hc]]
      simp [insertAnswer, hkey]
    · rw [show sortDesc (fun r => r.createdAt) [a, b] = [b, a] by
        simp [sortDesc, insertDesc, hc]]
      have : groupKeyOf b ≠ groupKeyOf a := fun h => hkey h.symm
      simp [insertAnswer, this]
  · intro rows
    exact pairwise_sortDesc _ _
  · intro rows g hg
    have hdm : dateMax ((sortDesc (fun a => a.createdAt) rows).foldl insertAnswer []) :=
      foldl_insertAnswer_dateMax _ []
        (pairwise_sortDesc (fun a => a.createdAt) rows)
        (by intro g0 hg0; cases hg0)
        (by intro g0 hg0; cases hg0)
    exact hdm g ((mem_sortDesc _ g _).mp hg)

/-- Witness for C3: two answers of one submission key 100 seconds apart on
day 0 collapse into a single group. -/
theorem grouped_answers_spec_witness :
    (AnswerRow.mk 1 2 3 100).taskId = (AnswerRow.mk 1 2 3 200).taskId ∧
    (AnswerRow.mk 1 2 3 100).clientId = (AnswerRow.mk 1 2 3 200).clientId ∧
    (AnswerRow.mk 1 2 3 100).userId = (AnswerRow.mk 1 2 3 200).userId ∧
    dateOf (AnswerRow.mk 1 2 3 100).createdAt =
      dateOf (AnswerRow.mk 1 2 3 200).createdAt ∧
    (getGroupedAnswers [AnswerRow.mk 1 2 3 100, AnswerRow.mk 1 2 3 200]).length = 1 :=
  ⟨by decide, by decide, by decide, by decide,
    grouped_answers_spec.2.1 (AnswerRow.mk 1 2 3 100) (AnswerRow.mk 1 2 3 200)
      (by decide) (by decide) (by decide) (by decide)⟩

end MicroCRM
